import Mathlib

/-!
# Verification of tugboat-py (`tug/main.py`)

Shallow embedding of the command-line orchestrator in `src/tug/main.py`.
Pure data flow is translated directly; calls to the container engine and to
the external `compose` library are represented either as input parameters
(their results) or as emitted `Event`s (their effects).  Python dictionaries
keyed by container id are association lists with dictionary semantics
(insertion overwrites, unguarded deletion of a missing key fails like a
`KeyError`).
-/

set_option autoImplicit false

namespace Tug

/-- A compose `Container` object as used by `main.py`: its engine id, full
name, `name_without_project`, `is_running` flag, `human_readable_state`, and
the bridge IP address read from `NetworkSettings.IPAddress`. -/
structure Container where
  id : String
  name : String
  name_without_project : String
  is_running : Bool
  human_readable_state : String
  ip : String
deriving Repr, DecidableEq

/-- A convergence plan as returned by compose's `_get_convergence_plans`:
an action string and the list of containers the plan refers to. -/
structure Plan where
  action : String
  containers : List Container
deriving Repr, DecidableEq

/-- One service as rendered by `Usage.ps`: its name together with
`service.containers(stopped=True) + service.containers(one_off=True)`. -/
structure ServiceView where
  name : String
  containers : List Container
deriving Repr, DecidableEq

/-- The `unknown` Python dictionary of `main.py`, keyed by container id. -/
abbrev Dict := List (String × Container)

/-- Keys of the dictionary. -/
def keys (d : Dict) : List String := d.map (·.1)

/-- Python dict assignment `unknown[container.id] = container`; an existing
binding for the key is overwritten in place, otherwise the pair is appended. -/
def dictInsert (d : Dict) (k : String) (v : Container) : Dict :=
  if k ∈ keys d then d.map (fun p => if p.1 = k then (k, v) else p)
  else d ++ [(k, v)]

/-- The loop `for container in containers: unknown[container.id] = container`
(`main.py` lines 271-273, 304-306, 147-150). -/
def buildUnknown (cs : List Container) : Dict :=
  cs.foldl (fun d c => dictInsert d c.id c) []

/-- Statement `del unknown[id]`: deleting a key that is absent raises `KeyError` (the
`.error` case); otherwise the binding is removed. -/
def dictDelete (d : Dict) (k : String) : Except String Dict :=
  if k ∈ keys d then .ok (d.filter (fun p => p.1 ≠ k)) else .error k

/-- Sequence of unguarded `del unknown[container.id]` statements, one per id
in order; the first missing key aborts the command with a `KeyError`. -/
def deleteIds (d : Dict) (ids : List String) : Except String Dict :=
  ids.foldlM dictDelete d

/-- All container ids referenced by the computed plans, in plan order
(the deletion order of the loops at `main.py` lines 276-279 and 313-317). -/
def planContainerIds (plans : List (String × Plan)) : List String :=
  plans.flatMap (fun sp => sp.2.containers.map (·.id))

/-- The orphan-candidate computation shared by `up` and `diff`
(`main.py` lines 270-279 and 303-317): build the `unknown` dictionary from
the pre-existing inventory, then delete every container id referenced by a
plan. -/
def computeOrphans (pre : List Container) (ids : List String) : Except String Dict :=
  deleteIds (buildUnknown pre) ids

/-- Observable effects of a command: calls into the container engine and
lines written to standard output. `wait` records the id, the timeout in
seconds, and whether this particular call timed out (raised `ReadTimeout`). -/
inductive Event where
  | projectUp : List String → Event
  | kill : String → String → Event
  | wait : String → Nat → Bool → Event
  | stop : String → Event
  | remove : String → Event
  | print : String → Event
deriving Repr, DecidableEq

/-- Whether an engine call targets container id `i` (print and plan
application target no single container). -/
def eventTargets (i : String) : Event → Bool
  | .kill j _ => j = i
  | .wait j _ _ => j = i
  | .stop j => j = i
  | .remove j => j = i
  | _ => false

/-- Whether an event is a removal of container id `i`. -/
def isRemove (i : String) : Event → Bool
  | .remove j => j = i
  | _ => false

/-- Whether an event is a print (pure output, no engine interaction). -/
def isPrint : Event → Bool
  | .print _ => true
  | _ => false

/-- Python `'{s: <w}'`: left-justify by padding with spaces to a minimum
width `w` (never truncating). -/
def padTo (s : String) (w : Nat) : String :=
  s ++ String.mk (List.replicate (w - s.length) ' ')

/-- The row format `'  {name: <24}{state: <12}{ip: <17}'` used by
`Usage.ps` and `Usage._ps`. -/
def psLine (name state ip : String) : String :=
  "  " ++ padTo name 24 ++ padTo state 12 ++ padTo ip 17

/-- The plan row `'  {name: <24}{action: <12}{containers}'` of `Usage.diff`. -/
def diffPlanLine (name action containers : String) : String :=
  "  " ++ padTo name 24 ++ padTo action 12 ++ containers

/-- The orphan row `'  {name: <24}{action: <12}'` of `Usage.diff`. -/
def diffDeleteLine (name action : String) : String :=
  "  " ++ padTo name 24 ++ padTo action 12

/-- Per-service body of `Usage.ps` (lines 207-223): a service with no
containers prints a single `Uncreated` row with an empty address; otherwise
one row per container, substituting `(host)` for an empty bridge address. -/
def psServiceLines (s : ServiceView) : List Event :=
  (if s.containers.length = 0 then
    [Event.print (psLine s.name "Uncreated" "")]
  else []) ++
  s.containers.map (fun c =>
    Event.print (psLine c.name_without_project c.human_readable_state
      (if c.ip = "" then "(host)" else c.ip)))

/-- Command `Usage.ps` (lines 202-224): header, per-service rows, trailing blank
line. `services` is the result of the external
`project.get_services(service_names=servicenames)` call. -/
def psRun (projectname : String) (services : List ServiceView) : List Event :=
  [Event.print "", Event.print ("  " ++ projectname ++ " services:"), Event.print ""]
  ++ services.flatMap psServiceLines
  ++ [Event.print ""]

/-- One orphan's teardown in `Usage.up` (lines 286-298).  If the container
is running: `kill(signal='SIGTERM')`, `client.wait(id, timeout=10)` inside
`try/except ReadTimeout: pass` (the recorded Boolean is the oracle's answer:
`true` means the wait raised `ReadTimeout`, which the handler swallows),
`stop()`, a second guarded wait, and then `remove()`; an already-stopped
container is only removed. -/
def reclaimOne (oracle : String → Nat → Bool) (c : Container) : List Event :=
  (if c.is_running then
    [Event.kill c.id "SIGTERM", Event.wait c.id 10 (oracle c.id 0),
     Event.stop c.id, Event.wait c.id 10 (oracle c.id 1)]
  else []) ++ [Event.remove c.id]

/-- The loop `for id in unknown:` of `Usage.up` (lines 285-298). -/
def reclaim (oracle : String → Nat → Bool) (unknown : Dict) : List Event :=
  unknown.flatMap (fun kc => reclaimOne oracle kc.2)

/-- Command `Usage.up` (lines 269-300).  `pre` is the pre-existing inventory
(`project.containers(stopped=True) + project.containers(one_off=True)`),
`plans` the result of the external `_get_convergence_plans` call, `post`
the service views that the trailing `self.ps` call observes after plan
application.  The orphan dictionary is computed (by unguarded deletion)
before `project.up` runs; orphans are reclaimed only when no service names
were requested. -/
def upRun (pre : List Container) (plans : List (String × Plan))
    (servicenames : List String) (oracle : String → Nat → Bool)
    (post : List ServiceView) (projectname : String) : Except String (List Event) := do
  let unknown ← computeOrphans pre (planContainerIds plans)
  pure ([Event.projectUp servicenames]
    ++ (if servicenames.length = 0 then reclaim oracle unknown else [])
    ++ psRun projectname post)

/-- The rendering of one plan row in `Usage.diff` (lines 313-322): the
service's containers are deleted from `unknown` while their names are
collected, then one row is printed. -/
def renderPlanLine (sp : String × Plan) : Event :=
  Event.print (diffPlanLine sp.1 sp.2.action
    (String.intercalate ", " (sp.2.containers.map (·.name))))

/-- One iteration of the `for service in plans:` loop of `Usage.diff`. -/
def diffStep (acc : Dict × List Event) (sp : String × Plan) :
    Except String (Dict × List Event) := do
  let d ← deleteIds acc.1 (sp.2.containers.map (·.id))
  pure (d, acc.2 ++ [renderPlanLine sp])

/-- The header of `Usage.diff` (lines 310-312). -/
def diffHeader (projectname : String) : List Event :=
  [Event.print "", Event.print ("  " ++ projectname ++ " convergence plan:"),
   Event.print ""]

/-- Command `Usage.diff` (lines 302-329): build `unknown` from the pre-existing
inventory, render one row per plan while deleting the plan's containers
from `unknown`, then render each remaining orphan with action `delete`. -/
def diffRun (projectname : String) (pre : List Container)
    (plans : List (String × Plan)) : Except String (List Event) := do
  let acc ← plans.foldlM diffStep (buildUnknown pre, [])
  pure (diffHeader projectname ++ acc.2
    ++ acc.1.map (fun kc => Event.print (diffDeleteLine kc.2.name "delete"))
    ++ [Event.print ""])

/-- The container ids deleted from `unknown` by `Usage._ps` (lines 163-173):
for every project in the directory and every service,
`service.containers(stopped=True) + service.containers(one_off=True)`. -/
def psAllTrackedIds (projects : List (List ServiceView)) : List String :=
  projects.flatMap (fun svs => svs.flatMap (fun s => s.containers.map (·.id)))

/-- The evolution of the `unknown` dictionary in `Usage._ps` (lines
146-173): it starts from all containers on the host and every tracked
container's id is deleted unguarded. -/
def psAllUnknownAfter (allContainers : List Container)
    (projects : List (List ServiceView)) : Except String Dict :=
  deleteIds (buildUnknown allContainers) (psAllTrackedIds projects)

/-- Python `s.endswith(suffix)`: the last `len(suffix)` characters equal
the suffix. -/
def strEndsWith (s suffix : String) : Bool :=
  s.data.drop (s.data.length - suffix.data.length) == suffix.data

/-- Python slicing `s[:-n]`: drop the last `n` characters. -/
def strDropRight (s : String) (n : Nat) : String :=
  String.mk (s.data.take (s.data.length - n))

/-- Helper `Usage._clean_project_name` (lines 124-130): strip a `.yml` suffix,
then a `.yaml` suffix. -/
def clean_project_name (name : String) : String :=
  let name := if strEndsWith name ".yml" then strDropRight name 4 else name
  let name := if strEndsWith name ".yaml" then strDropRight name 5 else name
  name

/-- Helper `Usage._get_config` (lines 132-134) resolves the configuration file as
`path.abspath('{name}.yml')`; modelled relative to the fixed working
directory, the loaded file is `name ++ ".yml"`. -/
def get_config_file (name : String) : String := name ++ ".yml"

/-- Project resolution for every project-taking command
(`Usage.__init__` lines 111-115): the `PROJECT` argument is passed to
`_get_config` verbatim. -/
def resolve_project_file (projectArg : String) : String :=
  get_config_file projectArg

/-- Command `Usage._exec` (lines 332-345): the container name is
`'{projectname}_{servicename}_1'`, an empty command list defaults to
`['/bin/bash']`, and the spawned process is
`docker exec -it <containername> <command...>`. -/
def execTarget (projectname servicename : String) (commands : List String) :
    String × List String :=
  let containername := projectname ++ "_" ++ servicename ++ "_1"
  let command := if commands.isEmpty then ["/bin/bash"] else commands
  (containername, ["docker", "exec", "-it", containername] ++ command)

/-- Exceptions that can reach `main`'s `try` (`main.py` lines 32-49);
`other` stands for every exception type not named in a handler. -/
inductive Exc where
  | keyboardInterrupt : Exc
  | noSuchService : String → Exc
  | configurationError : String → Exc
  | legacyContainersError : String → Exc
  | apiError : String → Exc
  | buildError : String → String → Exc
  | other : String → Exc
deriving Repr, DecidableEq

/-- The message printed for a `BuildError`
(`"Service '{service}' failed to build: {reason}"`). -/
def buildErrorMessage (service reason : String) : String :=
  "Service " ++ String.singleton (Char.ofNat 39) ++ service
    ++ String.singleton (Char.ofNat 39) ++ " failed to build: " ++ reason

/-- Entry point `main` (lines 32-49): run the body; a `KeyboardInterrupt` prints the
abort notice and exits 1, the three config-level errors print `e.msg` and
exit 1, `APIError` prints `e.explanation` and exits 1, `BuildError` prints
the formatted message and exits 1; any other exception propagates uncaught.
The `.ok` result carries the printed lines and the exit code (`none` when
the body returned normally). -/
def mainRun (body : Except Exc Unit) : Except Exc (List String × Option Nat) :=
  match body with
  | .ok _ => .ok ([], none)
  | .error .keyboardInterrupt => .ok (["\nAborting."], some 1)
  | .error (.noSuchService m) => .ok ([m], some 1)
  | .error (.configurationError m) => .ok ([m], some 1)
  | .error (.legacyContainersError m) => .ok ([m], some 1)
  | .error (.apiError explanation) => .ok ([explanation], some 1)
  | .error (.buildError s r) => .ok ([buildErrorMessage s r], some 1)
  | .error e => .error e

/-- Modelled from the spec: compose's `Project.get_services` (called at
`main.py` lines 206, 274, 307 but implemented outside this repository).
§4.2: plans target the given services, "defaulting to all services in the
project if none named", in the order given (or the project's declared
service order). -/
def get_services (declared : List String) (servicenames : List String) :
    List String :=
  if servicenames.isEmpty then declared else servicenames

/-- Modelled from the spec: compose's `Project._get_convergence_plans`
(called at `main.py` lines 275, 308 but implemented outside this
repository). §4.2: one plan per target service, "produced in the same order
as `targetServices` was given". `planOf` abstracts the planning decision for
a single service. -/
def get_convergence_plans (services : List String) (planOf : String → Plan) :
    List (String × Plan) :=
  services.map (fun s => (s, planOf s))

/-- Command `Usage.diff` including the plan computation (lines 307-308): services
are resolved, plans computed per service, then rendered. -/
def diffCommand (projectname : String) (declared : List String)
    (servicenames : List String) (planOf : String → Plan)
    (pre : List Container) : Except String (List Event) :=
  diffRun projectname pre
    (get_convergence_plans (get_services declared servicenames) planOf)

/-! ## Concrete sample data used by the witnesses -/

/-- A running managed container, as in the spec scenario `web_app_1`. -/
def sampleApp : Container :=
  ⟨"id1", "web_app_1", "app_1", true, "Up", "172.17.0.2"⟩

/-- A stopped unmanaged container, as in the spec scenario `stray`. -/
def sampleStray : Container :=
  ⟨"id2", "stray", "stray", false, "Exited", ""⟩

/-- A running unmanaged container. -/
def sampleStrayRun : Container :=
  ⟨"id3", "strayrun", "strayrun", true, "Up", ""⟩

/-- One noop plan covering `sampleApp`. -/
def samplePlans : List (String × Plan) := [("app", ⟨"noop", [sampleApp]⟩)]

/-! ## Dictionary lemmas -/

theorem keys_dictInsert (d : Dict) (k : String) (v : Container) :
    keys (dictInsert d k v) = if k ∈ keys d then keys d else keys d ++ [k] := by
  unfold dictInsert
  split
  · simp only [keys, List.map_map, if_pos ‹k ∈ keys d›]
    refine List.map_congr_left (fun p _ => ?_)
    by_cases h : p.1 = k <;> simp [h]
  · simp [keys, if_neg ‹¬ k ∈ keys d›]

theorem mem_keys_dictInsert (d : Dict) (k i : String) (v : Container) :
    i ∈ keys (dictInsert d k v) ↔ i ∈ keys d ∨ i = k := by
  rw [keys_dictInsert]
  split
  · constructor
    · exact fun h => Or.inl h
    · rintro (h | rfl)
      · exact h
      · assumption
  · simp

theorem nodup_keys_dictInsert (d : Dict) (k : String) (v : Container)
    (h : (keys d).Nodup) : (keys (dictInsert d k v)).Nodup := by
  rw [keys_dictInsert]
  split
  · exact h
  · simpa [List.nodup_append, h] using ‹¬ k ∈ keys d›

theorem mem_dictInsert (d : Dict) (c : Container) (p : String × Container)
    (hp : p ∈ dictInsert d c.id c) : p ∈ d ∨ p = (c.id, c) := by
  unfold dictInsert at hp
  split at hp
  · rcases List.mem_map.1 hp with ⟨q, hq, hqe⟩
    by_cases h : q.1 = c.id
    · right
      rw [if_pos h] at hqe
      exact hqe.symm
    · left
      rw [if_neg h] at hqe
      exact hqe ▸ hq
  · rcases List.mem_append.1 hp with h | h
    · exact Or.inl h
    · right
      simpa using h

theorem buildUnknown_go_id (cs : List Container) :
    ∀ d : Dict, (∀ p ∈ d, p.2.id = p.1) →
      ∀ p ∈ cs.foldl (fun d c => dictInsert d c.id c) d, p.2.id = p.1 := by
  induction cs with
  | nil => intro d hd p hp; exact hd p hp
  | cons c cs ih =>
      intro d hd p hp
      refine ih (dictInsert d c.id c) ?_ p hp
      intro q hq
      rcases mem_dictInsert d c q hq with h | h
      · exact hd q h
      · rw [h]

/-- Every entry of the `unknown` dictionary stores the container whose id
is its key. -/
theorem buildUnknown_id (cs : List Container) :
    ∀ p ∈ buildUnknown cs, p.2.id = p.1 :=
  buildUnknown_go_id cs [] (by simp)

theorem buildUnknown_go_nodup (cs : List Container) :
    ∀ d : Dict, (keys d).Nodup →
      (keys (cs.foldl (fun d c => dictInsert d c.id c) d)).Nodup := by
  induction cs with
  | nil => intro d hd; exact hd
  | cons c cs ih =>
      intro d hd
      exact ih _ (nodup_keys_dictInsert d c.id c hd)

/-- Python dictionary keys are pairwise distinct. -/
theorem nodup_keys_buildUnknown (cs : List Container) :
    (keys (buildUnknown cs)).Nodup :=
  buildUnknown_go_nodup cs [] (by simp [keys])

theorem mem_keys_buildUnknown_go (cs : List Container) :
    ∀ (d : Dict) (k : String),
      k ∈ keys (cs.foldl (fun d c => dictInsert d c.id c) d) ↔
        k ∈ keys d ∨ k ∈ cs.map (·.id) := by
  induction cs with
  | nil => simp
  | cons c cs ih =>
      intro d k
      rw [List.foldl_cons, ih, mem_keys_dictInsert]
      simp only [List.map_cons, List.mem_cons]
      tauto

/-- The key set of the `unknown` dictionary is exactly the id set of the
containers it was built from. -/
theorem mem_keys_buildUnknown (cs : List Container) (k : String) :
    k ∈ keys (buildUnknown cs) ↔ k ∈ cs.map (·.id) := by
  simpa [keys] using mem_keys_buildUnknown_go cs [] k

theorem deleteIds_nil (d : Dict) : deleteIds d [] = .ok d := rfl

theorem deleteIds_cons (d : Dict) (k : String) (ids : List String) :
    deleteIds d (k :: ids) =
      (dictDelete d k).bind (fun d' => deleteIds d' ids) := by
  cases h : dictDelete d k <;> simp [deleteIds, List.foldlM, h] <;> rfl

theorem deleteIds_append (l₁ l₂ : List String) :
    ∀ d : Dict, deleteIds d (l₁ ++ l₂) =
      (deleteIds d l₁).bind (fun d' => deleteIds d' l₂) := by
  induction l₁ with
  | nil => intro d; simp [deleteIds_nil, Except.bind]
  | cons k l₁ ih =>
      intro d
      rw [List.cons_append, deleteIds_cons, deleteIds_cons]
      cases dictDelete d k <;> simp [Except.bind, ih]

/-- When the sequence of deletions succeeds, the surviving dictionary is
exactly the original minus the deleted keys. -/
theorem deleteIds_ok_eq (ids : List String) :
    ∀ d d' : Dict, deleteIds d ids = .ok d' →
      d' = d.filter (fun p => !(ids.contains p.1)) := by
  induction ids with
  | nil =>
      intro d d' h
      rw [deleteIds_nil] at h
      cases h
      simp
  | cons k ids ih =>
      intro d d' h
      rw [deleteIds_cons] at h
      unfold dictDelete at h
      split at h
      · simp only [Except.bind] at h
        rw [ih _ _ h, List.filter_filter]
        refine List.filter_congr (fun p _ => ?_)
        by_cases hpk : p.1 = k <;> simp [hpk]
      · simp [Except.bind] at h

theorem except_bind_ok {ε α β : Type} (a : α) (f : α → Except ε β) :
    (Except.ok a : Except ε α) >>= f = f a := rfl

theorem except_bind_error {ε α β : Type} (e : ε) (f : α → Except ε β) :
    (Except.error e : Except ε α) >>= f = Except.error e := rfl

theorem except_map_ok {ε α β : Type} (f : α → β) (a : α) :
    Except.map f (Except.ok a : Except ε α) = Except.ok (f a) := rfl

theorem except_map_error {ε α β : Type} (f : α → β) (e : ε) :
    Except.map f (Except.error e : Except ε α) = Except.error e := rfl

theorem keys_filter (d : Dict) (f : String → Bool) :
    keys (d.filter (fun p => f p.1)) = (keys d).filter f := by
  induction d with
  | nil => rfl
  | cons p d ih =>
      by_cases h : f p.1 <;> simp [keys, List.filter_cons, h] <;>
        simpa [keys] using ih

/-- The sequence of unguarded deletions completes without a `KeyError`
exactly when the ids are pairwise distinct and each is a key of the
dictionary. -/
theorem deleteIds_ok_iff (ids : List String) :
    ∀ d : Dict, (keys d).Nodup →
      ((∃ d', deleteIds d ids = .ok d') ↔
        ids.Nodup ∧ ∀ i ∈ ids, i ∈ keys d) := by
  induction ids with
  | nil => intro d _; simp [deleteIds_nil]
  | cons k ids ih =>
      intro d hd
      rw [deleteIds_cons]
      unfold dictDelete
      split
      · rename_i hk
        simp only [Except.bind]
        have hkeys : keys (d.filter (fun p => p.1 ≠ k)) =
            (keys d).filter (fun i => i ≠ k) :=
          keys_filter d (fun i => decide (i ≠ k))
        have hnd' : (keys (d.filter (fun p => p.1 ≠ k))).Nodup := by
          rw [hkeys]; exact hd.filter _
        rw [ih _ hnd']
        constructor
        · rintro ⟨hnd, hall⟩
          have hmem : ∀ i ∈ ids, i ∈ keys d ∧ i ≠ k := by
            intro i hi
            have := hall i hi
            rw [hkeys, List.mem_filter] at this
            exact ⟨this.1, by simpa using this.2⟩
          refine ⟨List.nodup_cons.2 ⟨fun hkin => (hmem k hkin).2 rfl, hnd⟩, ?_⟩
          intro i hi
          rcases List.mem_cons.1 hi with rfl | hi
          · exact hk
          · exact (hmem i hi).1
        · rintro ⟨hnd, hall⟩
          refine ⟨hnd.of_cons, ?_⟩
          intro i hi
          rw [hkeys, List.mem_filter]
          have hik : i ≠ k := fun he => (List.nodup_cons.1 hnd).1 (he ▸ hi)
          exact ⟨hall i (List.mem_cons_of_mem _ hi), by simpa using hik⟩
      · rename_i hk
        constructor
        · rintro ⟨d', hd'⟩
          simp [Except.bind] at hd'
        · rintro ⟨_, hall⟩
          exact absurd (hall k (List.mem_cons_self _ _)) hk

/-- Success condition of the shared orphan computation: it completes
exactly when every deleted id names a pre-existing container and no id is
deleted twice. -/
theorem computeOrphans_ok_iff (pre : List Container) (ids : List String) :
    (∃ d', computeOrphans pre ids = .ok d') ↔
      ids.Nodup ∧ ∀ i ∈ ids, i ∈ pre.map (·.id) := by
  unfold computeOrphans
  rw [deleteIds_ok_iff ids _ (nodup_keys_buildUnknown pre)]
  constructor
  · rintro ⟨h₁, h₂⟩
    exact ⟨h₁, fun i hi => (mem_keys_buildUnknown pre i).1 (h₂ i hi)⟩
  · rintro ⟨h₁, h₂⟩
    exact ⟨h₁, fun i hi => (mem_keys_buildUnknown pre i).2 (h₂ i hi)⟩

/-! ## Structure of `up` and `diff` runs -/

theorem upRun_eq_of_orphans (pre : List Container) (plans : List (String × Plan))
    (servicenames : List String) (oracle : String → Nat → Bool)
    (post : List ServiceView) (projectname : String) (orph : Dict)
    (h : computeOrphans pre (planContainerIds plans) = .ok orph) :
    upRun pre plans servicenames oracle post projectname =
      .ok ([Event.projectUp servicenames]
        ++ (if servicenames.length = 0 then reclaim oracle orph else [])
        ++ psRun projectname post) := by
  simp [upRun, h, Except.bind]

theorem upRun_error (pre : List Container) (plans : List (String × Plan))
    (servicenames : List String) (oracle : String → Nat → Bool)
    (post : List ServiceView) (projectname : String) (k : String)
    (h : computeOrphans pre (planContainerIds plans) = .error k) :
    upRun pre plans servicenames oracle post projectname = .error k := by
  simp [upRun, h, Except.bind]

theorem diff_foldlM_eq (plans : List (String × Plan)) :
    ∀ (d : Dict) (evs : List Event),
      plans.foldlM diffStep (d, evs) =
        (deleteIds d (planContainerIds plans)).map
          (fun d' => (d', evs ++ plans.map renderPlanLine)) := by
  induction plans with
  | nil =>
      intro d evs
      simp only [List.foldlM_nil, planContainerIds, List.flatMap_nil,
        deleteIds_nil, except_map_ok, List.map_nil, List.append_nil]
      rfl
  | cons sp plans ih =>
      intro d evs
      have hids : planContainerIds (sp :: plans) =
          sp.2.containers.map (·.id) ++ planContainerIds plans := by
        simp [planContainerIds]
      rw [List.foldlM_cons, hids, deleteIds_append]
      cases h : deleteIds d (sp.2.containers.map (·.id)) with
      | error k =>
          have hstep : diffStep (d, evs) sp = Except.error k := by
            simp [diffStep, h, except_bind_ok]
          rw [hstep]
          rfl
      | ok d₁ =>
          have hstep : diffStep (d, evs) sp =
              Except.ok (d₁, evs ++ [renderPlanLine sp]) := by
            simp [diffStep, h, except_bind_ok]
          rw [hstep]
          have hrun : (do
              let init ← Except.ok (d₁, evs ++ [renderPlanLine sp])
              List.foldlM diffStep init plans) =
              List.foldlM diffStep (d₁, evs ++ [renderPlanLine sp]) plans := rfl
          rw [hrun, ih]
          cases hh : deleteIds d₁ (planContainerIds plans) <;>
            simp [Except.map, Except.bind, hh]

theorem diffRun_eq_of_orphans (projectname : String) (pre : List Container)
    (plans : List (String × Plan)) (orph : Dict)
    (h : computeOrphans pre (planContainerIds plans) = .ok orph) :
    diffRun projectname pre plans =
      .ok (diffHeader projectname ++ plans.map renderPlanLine
        ++ orph.map (fun kc => Event.print (diffDeleteLine kc.2.name "delete"))
        ++ [Event.print ""]) := by
  unfold diffRun
  rw [diff_foldlM_eq plans (buildUnknown pre) []]
  unfold computeOrphans at h
  simp [h, Except.map, Except.bind]

theorem diffRun_error (projectname : String) (pre : List Container)
    (plans : List (String × Plan)) (k : String)
    (h : computeOrphans pre (planContainerIds plans) = .error k) :
    diffRun projectname pre plans = .error k := by
  unfold diffRun
  rw [diff_foldlM_eq plans (buildUnknown pre) []]
  unfold computeOrphans at h
  simp [h, Except.map, Except.bind]

/-! ## Reclaim trace lemmas -/

theorem eventTargets_reclaimOne (oracle : String → Nat → Bool) (c : Container)
    (i : String) (e : Event) (he : e ∈ reclaimOne oracle c) :
    eventTargets i e = decide (c.id = i) := by
  unfold reclaimOne at he
  by_cases hr : c.is_running
  · simp [hr] at he
    rcases he with rfl | rfl | rfl | rfl | rfl <;> simp [eventTargets]
  · simp [hr] at he
    subst he
    simp [eventTargets]

theorem reclaim_cons (oracle : String → Nat → Bool) (p : String × Container)
    (orph : Dict) :
    reclaim oracle (p :: orph) = reclaimOne oracle p.2 ++ reclaim oracle orph := by
  simp [reclaim]

theorem reclaim_filter_nil (oracle : String → Nat → Bool) (orph : Dict)
    (k : String) (hid : ∀ p ∈ orph, p.2.id = p.1) (hk : k ∉ keys orph) :
    (reclaim oracle orph).filter (eventTargets k) = [] := by
  rw [List.filter_eq_nil_iff]
  intro e he
  rcases List.mem_flatMap.1 he with ⟨p, hp, hep⟩
  rw [eventTargets_reclaimOne oracle p.2 k e hep, hid p hp]
  simp only [decide_eq_true_eq]
  intro h
  exact hk (h ▸ List.mem_map_of_mem _ hp)

/-- Filtering the reclaim trace down to the events that target one orphan's
id yields exactly that orphan's own teardown sequence. -/
theorem reclaim_filter_eq (oracle : String → Nat → Bool) (orph : Dict)
    (k : String) (c : Container) (hid : ∀ p ∈ orph, p.2.id = p.1)
    (hnd : (keys orph).Nodup) (hmem : (k, c) ∈ orph) :
    (reclaim oracle orph).filter (eventTargets k) = reclaimOne oracle c := by
  induction orph with
  | nil => cases hmem
  | cons p orph ih =>
      have hnd' : (p.1 :: keys orph).Nodup := hnd
      have hpk_notin : p.1 ∉ keys orph := (List.nodup_cons.1 hnd').1
      have hnd_tail : (keys orph).Nodup := (List.nodup_cons.1 hnd').2
      have hid_tail : ∀ q ∈ orph, q.2.id = q.1 :=
        fun q hq => hid q (List.mem_cons_of_mem _ hq)
      rw [reclaim_cons, List.filter_append]
      by_cases hpk : p.1 = k
      · have hp_eq : p = (k, c) := by
          rcases List.mem_cons.1 hmem with h | h
          · exact h.symm
          · exfalso
            apply hpk_notin
            rw [hpk]
            exact List.mem_map_of_mem Prod.fst h
        have hhead : (reclaimOne oracle p.2).filter (eventTargets k) =
            reclaimOne oracle c := by
          rw [hp_eq]
          refine List.filter_eq_self.2 (fun e he => ?_)
          rw [eventTargets_reclaimOne oracle c k e he]
          have : c.id = k := by
            simpa [hp_eq] using hid p (List.mem_cons_self p orph)
          simp [this]
        have htail : (reclaim oracle orph).filter (eventTargets k) = [] :=
          reclaim_filter_nil oracle orph k hid_tail (hpk ▸ hpk_notin)
        rw [hhead, htail, List.append_nil]
      · have hmem_tail : (k, c) ∈ orph := by
          rcases List.mem_cons.1 hmem with h | h
          · exact absurd (congrArg Prod.fst h.symm) hpk
          · exact h
        have hhead : (reclaimOne oracle p.2).filter (eventTargets k) = [] := by
          refine List.filter_eq_nil_iff.2 (fun e he => ?_)
          rw [eventTargets_reclaimOne oracle p.2 k e he,
            hid p (List.mem_cons_self p orph)]
          simp [hpk]
        rw [hhead, List.nil_append]
        exact ih hid_tail hnd_tail hmem_tail

theorem psServiceLines_isPrint (s : ServiceView) :
    ∀ e ∈ psServiceLines s, isPrint e = true := by
  intro e he
  unfold psServiceLines at he
  rcases List.mem_append.1 he with h | h
  · split at h
    · rw [List.mem_singleton] at h
      subst h
      rfl
    · cases h
  · rcases List.mem_map.1 h with ⟨c, _, rfl⟩
    rfl

theorem psRun_isPrint (pn : String) (svs : List ServiceView) :
    ∀ e ∈ psRun pn svs, isPrint e = true := by
  intro e he
  unfold psRun at he
  rcases List.mem_append.1 he with h | h
  · rcases List.mem_append.1 h with h | h
    · rcases List.mem_cons.1 h with rfl | h
      · rfl
      · rcases List.mem_cons.1 h with rfl | h
        · rfl
        · rw [List.mem_singleton] at h
          subst h
          rfl
    · rcases List.mem_flatMap.1 h with ⟨s, hs, hes⟩
      exact psServiceLines_isPrint s e hes
  · rw [List.mem_singleton] at h
    subst h
    rfl

theorem eventTargets_of_isPrint (i : String) (e : Event)
    (h : isPrint e = true) : eventTargets i e = false := by
  cases e <;> first | rfl | simp [isPrint] at h

theorem filter_isRemove_through_targets (k : String) (l : List Event) :
    (l.filter (eventTargets k)).filter (isRemove k) = l.filter (isRemove k) := by
  rw [List.filter_filter]
  refine List.filter_congr (fun e _ => ?_)
  cases e <;> simp [isRemove, eventTargets]

/-- Structural facts about a successfully computed orphan dictionary:
entries are keyed by their container's id, keys are distinct, every key is
a pre-existing container id, and no key was referenced by a plan. -/
theorem computeOrphans_entries (pre : List Container) (ids : List String)
    (orph : Dict) (h : computeOrphans pre ids = .ok orph) :
    (∀ p ∈ orph, p.2.id = p.1) ∧ (keys orph).Nodup ∧
      (∀ k ∈ keys orph, k ∈ pre.map (·.id)) ∧ (∀ k ∈ keys orph, k ∉ ids) := by
  have heq := deleteIds_ok_eq ids (buildUnknown pre) orph h
  have hsub : ∀ p ∈ orph, p ∈ buildUnknown pre := by
    intro p hp
    rw [heq] at hp
    exact (List.mem_filter.1 hp).1
  refine ⟨fun p hp => buildUnknown_id pre p (hsub p hp), ?_, ?_, ?_⟩
  · have : orph.Sublist (buildUnknown pre) := by
      rw [heq]
      exact List.filter_sublist _
    exact (nodup_keys_buildUnknown pre).sublist (this.map Prod.fst)
  · intro k hk
    rcases List.mem_map.1 hk with ⟨p, hp, rfl⟩
    exact (mem_keys_buildUnknown pre p.1).1
      (List.mem_map_of_mem Prod.fst (hsub p hp))
  · intro k hk
    rcases List.mem_map.1 hk with ⟨p, hp, rfl⟩
    rw [heq] at hp
    have := (List.mem_filter.1 hp).2
    simpa using this

/-! ## Claim theorems -/

/-- C5 counterexample: passing `web.yml` as the project argument does NOT
resolve to the same configuration file as passing `web` — the suffix is not
stripped, so `web.yml` loads `web.yml.yml` and `web.yaml` loads
`web.yaml.yml`. -/
theorem project_suffix_not_stripped_cex :
    resolve_project_file "web.yml" ≠ resolve_project_file "web" ∧
    resolve_project_file "web.yaml" ≠ resolve_project_file "web" ∧
    resolve_project_file "web" = "web.yml" ∧
    resolve_project_file "web.yml" = "web.yml.yml" ∧
    resolve_project_file "web.yaml" = "web.yaml.yml" := by
  refine ⟨?_, ?_, rfl, rfl, rfl⟩ <;> decide

/-- C5 (amended): a project-taking command appends `.yml` to the argument
verbatim — it never strips a `.yml`/`.yaml` suffix; suffix stripping
(`_clean_project_name`) happens only when enumerating the project files of
the working directory for the bare `ps` listing. -/
theorem project_resolution_appends_yml :
    (∀ name : String, resolve_project_file name = name ++ ".yml") ∧
    clean_project_name "web.yml" = "web" ∧
    clean_project_name "web.yaml" = "web" :=
  ⟨fun _ => rfl, by decide, by decide⟩

/-- C7 counterexample: the top-level handler also catches
`LegacyContainersError` (printing its message and exiting 1), an exception
type outside the claim's enumerated set. -/
theorem legacy_error_caught_cex :
    mainRun (.error (.legacyContainersError "legacy containers found")) =
      .ok (["legacy containers found"], some 1) := rfl

/-- C7 (amended): the caught exception types are exactly
`KeyboardInterrupt` (abort notice), `NoSuchService`, `ConfigurationError`
AND `LegacyContainersError` (their message), `APIError` (the engine's
explanation text) and `BuildError` (formatted message), each exiting 1;
every other exception propagates uncaught. -/
theorem main_error_handling :
    (∀ m, mainRun (.error (.noSuchService m)) = .ok ([m], some 1)) ∧
    (∀ m, mainRun (.error (.configurationError m)) = .ok ([m], some 1)) ∧
    (∀ m, mainRun (.error (.legacyContainersError m)) = .ok ([m], some 1)) ∧
    (∀ e, mainRun (.error (.apiError e)) = .ok ([e], some 1)) ∧
    (∀ s r, mainRun (.error (.buildError s r)) =
      .ok ([buildErrorMessage s r], some 1)) ∧
    mainRun (.error .keyboardInterrupt) = .ok (["\nAborting."], some 1) ∧
    (∀ d, mainRun (.error (.other d)) = .error (.other d)) ∧
    mainRun (.ok ()) = .ok ([], none) :=
  ⟨fun _ => rfl, fun _ => rfl, fun _ => rfl, fun _ => rfl,
   fun _ _ => rfl, rfl, fun _ => rfl, rfl⟩

/-- C9: the `exec` command always targets the first replica
`{project}_{service}_1`, and an empty command list defaults the command to
an interactive `/bin/bash`. -/
theorem exec_targets_first_replica (projectname servicename : String)
    (commands : List String) :
    (execTarget projectname servicename commands).1 =
      projectname ++ "_" ++ servicename ++ "_1" ∧
    (execTarget projectname servicename []).2 =
      ["docker", "exec", "-it", projectname ++ "_" ++ servicename ++ "_1",
       "/bin/bash"] ∧
    (commands ≠ [] →
      (execTarget projectname servicename commands).2 =
        ["docker", "exec", "-it", projectname ++ "_" ++ servicename ++ "_1"]
          ++ commands) := by
  refine ⟨rfl, rfl, fun h => ?_⟩
  simp [execTarget, h]

/-- C9 witness at a concrete non-empty command list. -/
theorem exec_targets_first_replica_witness :
    ["ls"] ≠ ([] : List String) ∧
    (execTarget "web" "app" ["ls"]).2 =
      ["docker", "exec", "-it", "web" ++ "_" ++ "app" ++ "_1"] ++ ["ls"] :=
  ⟨by decide, (exec_targets_first_replica "web" "app" ["ls"]).2.2 (by decide)⟩

/-- C8: in the `ps PROJECT` status view, a service with zero containers is
rendered as exactly one line with state `Uncreated` and empty address, a
container whose bridge IP is empty is rendered with the literal address
`(host)`, and the whole rendering consists of prints only — no engine
mutation. -/
theorem ps_render_uncreated_and_host (pn : String) (svs : List ServiceView)
    (s : ServiceView) (c : Container) :
    (s.containers = [] →
      psServiceLines s = [Event.print (psLine s.name "Uncreated" "")]) ∧
    (s ∈ svs → c ∈ s.containers → c.ip = "" →
      Event.print (psLine c.name_without_project c.human_readable_state
        "(host)") ∈ psRun pn svs) ∧
    (∀ e ∈ psRun pn svs, isPrint e = true) := by
  refine ⟨fun h => ?_, fun hs hc hip => ?_, psRun_isPrint pn svs⟩
  · simp [psServiceLines, h]
  · unfold psRun
    refine List.mem_append.2 (Or.inl (List.mem_append.2 (Or.inr ?_)))
    refine List.mem_flatMap.2 ⟨s, hs, ?_⟩
    unfold psServiceLines
    refine List.mem_append.2 (Or.inr ?_)
    refine List.mem_map.2 ⟨c, hc, ?_⟩
    simp [hip]

/-- C8 witness: an uncreated service renders one `Uncreated` line, and a
host-networked container renders `(host)`. -/
theorem ps_render_uncreated_and_host_witness :
    psServiceLines ⟨"app", []⟩ = [Event.print (psLine "app" "Uncreated" "")] ∧
    Event.print (psLine "stray" "Exited" "(host)") ∈
      psRun "web" [⟨"db", [sampleStray]⟩] :=
  ⟨(ps_render_uncreated_and_host "web" [] ⟨"app", []⟩ sampleStray).1 rfl,
   (ps_render_uncreated_and_host "web" [⟨"db", [sampleStray]⟩]
      ⟨"db", [sampleStray]⟩ sampleStray).2.1 (by simp) (by simp) rfl⟩

/-- C10: `up`, `diff` and the deletion loop of bare `ps` complete without a
`KeyError` exactly when every container id they delete from the pre-built
inventory dictionary is present in it and no id is deleted twice; otherwise
the unguarded `del` fails. -/
theorem unguarded_deletion_keyerror_iff :
    (∀ (pre : List Container) (plans : List (String × Plan))
        (sn : List String) (oracle : String → Nat → Bool)
        (post : List ServiceView) (pn : String),
      (∃ t, upRun pre plans sn oracle post pn = .ok t) ↔
        ((planContainerIds plans).Nodup ∧
          ∀ i ∈ planContainerIds plans, i ∈ pre.map (·.id))) ∧
    (∀ (pn : String) (pre : List Container) (plans : List (String × Plan)),
      (∃ t, diffRun pn pre plans = .ok t) ↔
        ((planContainerIds plans).Nodup ∧
          ∀ i ∈ planContainerIds plans, i ∈ pre.map (·.id))) ∧
    (∀ (allContainers : List Container) (projects : List (List ServiceView)),
      (∃ d, psAllUnknownAfter allContainers projects = .ok d) ↔
        ((psAllTrackedIds projects).Nodup ∧
          ∀ i ∈ psAllTrackedIds projects, i ∈ allContainers.map (·.id))) := by
  refine ⟨fun pre plans sn oracle post pn => ?_, fun pn pre plans => ?_,
    fun allContainers projects => ?_⟩
  · rw [← computeOrphans_ok_iff]
    constructor
    · rintro ⟨t, ht⟩
      cases horph : computeOrphans pre (planContainerIds plans) with
      | error k =>
          rw [upRun_error pre plans sn oracle post pn k horph] at ht
          cases ht
      | ok orph => exact ⟨orph, rfl⟩
    · rintro ⟨orph, horph⟩
      exact ⟨_, upRun_eq_of_orphans pre plans sn oracle post pn orph horph⟩
  · rw [← computeOrphans_ok_iff]
    constructor
    · rintro ⟨t, ht⟩
      cases horph : computeOrphans pre (planContainerIds plans) with
      | error k =>
          rw [diffRun_error pn pre plans k horph] at ht
          cases ht
      | ok orph => exact ⟨orph, rfl⟩
    · rintro ⟨orph, horph⟩
      exact ⟨_, diffRun_eq_of_orphans pn pre plans orph horph⟩
  · exact computeOrphans_ok_iff allContainers (psAllTrackedIds projects)

/-- C10 witness: with the sample inventory and plan all deletions succeed,
and deleting the same id twice fails with a `KeyError`. -/
theorem unguarded_deletion_keyerror_iff_witness :
    (∃ t, upRun [sampleApp, sampleStray] samplePlans []
      (fun _ _ => true) [] "web" = .ok t) ∧
    ¬ (∃ t, diffRun "web" [sampleApp, sampleStray]
        (samplePlans ++ samplePlans) = .ok t) :=
  ⟨(unguarded_deletion_keyerror_iff.1 [sampleApp, sampleStray] samplePlans []
      (fun _ _ => true) [] "web").2 (by decide),
   fun h => by
    have := (unguarded_deletion_keyerror_iff.2.1 "web" [sampleApp, sampleStray]
      (samplePlans ++ samplePlans)).1 h
    revert this
    decide⟩

/-- C2: for any pre-existing inventory and computed plans, the orphan set
computed by `up`/`diff` is disjoint from the plan container ids, and its
union with the plan container ids is exactly the id set of the pre-existing
inventory. -/
theorem orphans_disjoint_union_inventory (pre : List Container)
    (plans : List (String × Plan)) (orph : Dict)
    (h : computeOrphans pre (planContainerIds plans) = .ok orph) :
    (∀ k ∈ keys orph, k ∉ planContainerIds plans) ∧
    (∀ k, k ∈ pre.map (·.id) ↔
      (k ∈ keys orph ∨ k ∈ planContainerIds plans)) := by
  obtain ⟨hid, hnd, hpre, hdisj⟩ := computeOrphans_entries pre _ orph h
  refine ⟨hdisj, fun k => ⟨?_, ?_⟩⟩
  · intro hk
    by_cases hkp : k ∈ planContainerIds plans
    · exact Or.inr hkp
    · left
      have heq := deleteIds_ok_eq _ _ _ h
      have : keys orph = (keys (buildUnknown pre)).filter
          (fun i => !((planContainerIds plans).contains i)) := by
        rw [heq]
        exact keys_filter (buildUnknown pre)
          (fun i => !((planContainerIds plans).contains i))
      rw [this, List.mem_filter]
      refine ⟨(mem_keys_buildUnknown pre k).2 hk, by simpa using hkp⟩
  · rintro (hk | hkp)
    · exact hpre k hk
    · exact ((computeOrphans_ok_iff pre _).1 ⟨orph, h⟩).2 k hkp

/-- C2 witness: on the sample data the orphan set is exactly the stray
container and the partition property holds. -/
theorem orphans_disjoint_union_inventory_witness :
    (∀ k ∈ keys [("id2", sampleStray)], k ∉ planContainerIds samplePlans) ∧
    (∀ k, k ∈ [sampleApp, sampleStray].map (·.id) ↔
      (k ∈ keys [("id2", sampleStray)] ∨ k ∈ planContainerIds samplePlans)) :=
  orphans_disjoint_union_inventory [sampleApp, sampleStray] samplePlans
    [("id2", sampleStray)] (by rfl)

/-- C3: in an `up` run with no service names, the set of containers the
reclaimer acts on is fully determined by the pre-plan inventory and the
plans — computed before `project.up` — so no event in the whole trace ever
targets a container id absent from the pre-existing inventory (in
particular, none created by plan application). -/
theorem orphans_computed_pre_apply (pre : List Container)
    (plans : List (String × Plan)) (oracle : String → Nat → Bool)
    (post : List ServiceView) (pn : String) (trace : List Event)
    (h : upRun pre plans [] oracle post pn = .ok trace) :
    (∃ orph, computeOrphans pre (planContainerIds plans) = .ok orph ∧
      trace = [Event.projectUp []] ++ reclaim oracle orph ++ psRun pn post) ∧
    (∀ cid, cid ∉ pre.map (·.id) → ∀ e ∈ trace, eventTargets cid e = false) := by
  cases horph : computeOrphans pre (planContainerIds plans) with
  | error k =>
      rw [upRun_error pre plans [] oracle post pn k horph] at h
      cases h
  | ok orph =>
      have htr := upRun_eq_of_orphans pre plans [] oracle post pn orph horph
      rw [htr] at h
      have htrace : trace = [Event.projectUp []] ++ reclaim oracle orph
          ++ psRun pn post := by
        cases h
        simp
      obtain ⟨hid, hnd, hpre, hdisj⟩ := computeOrphans_entries pre _ orph horph
      refine ⟨⟨orph, rfl, htrace⟩, fun cid hcid e he => ?_⟩
      rw [htrace] at he
      rcases List.mem_append.1 he with he | he
      · rcases List.mem_append.1 he with he | he
        · rw [List.mem_singleton] at he
          subst he
          rfl
        · rcases List.mem_flatMap.1 he with ⟨p, hp, hep⟩
          rw [eventTargets_reclaimOne oracle p.2 cid e hep, hid p hp]
          simp only [decide_eq_false_iff_not]
          intro heq
          exact hcid (heq ▸ hpre p.1 (List.mem_map_of_mem Prod.fst hp))
      · exact eventTargets_of_isPrint cid e (psRun_isPrint pn post e he)

/-- C3 witness: in a concrete unscoped `up` run, the one engine-mutating
event does not target a container id that was absent from the pre-existing
inventory. -/
theorem orphans_computed_pre_apply_witness :
    eventTargets "idNew" (Event.remove "id2") = false :=
  (orphans_computed_pre_apply [sampleApp, sampleStray] samplePlans
    (fun _ _ => true) [] "web"
    [Event.projectUp [], Event.remove "id2", Event.print "",
     Event.print "  web services:", Event.print "", Event.print ""]
    (by rfl)).2 "idNew" (by decide) (Event.remove "id2") (by decide)

/-- C4: when specific service names are requested, `up` performs no kill,
stop, wait or remove at all — besides plan application the trace consists
of prints only, so every orphan candidate is left unchanged. -/
theorem up_scoped_skips_reclaim (pre : List Container)
    (plans : List (String × Plan)) (sn : List String)
    (oracle : String → Nat → Bool) (post : List ServiceView) (pn : String)
    (trace : List Event) (hsn : sn ≠ [])
    (h : upRun pre plans sn oracle post pn = .ok trace) :
    ∀ e ∈ trace, e = Event.projectUp sn ∨ isPrint e = true := by
  cases horph : computeOrphans pre (planContainerIds plans) with
  | error k =>
      rw [upRun_error pre plans sn oracle post pn k horph] at h
      cases h
  | ok orph =>
      rw [upRun_eq_of_orphans pre plans sn oracle post pn orph horph] at h
      have hlen : ¬ sn.length = 0 := by
        simpa [List.length_eq_zero] using hsn
      rw [if_neg hlen] at h
      cases h
      intro e he
      rcases List.mem_append.1 he with he | he
      · rcases List.mem_append.1 he with he | he
        · rw [List.mem_singleton] at he
          exact Or.inl he
        · cases he
      · exact Or.inr (psRun_isPrint pn post e he)

/-- C4 witness: in a concrete scoped `up` run, an arbitrary trace element
is plan application or a print — never a container mutation. -/
theorem up_scoped_skips_reclaim_witness :
    Event.print "" = Event.projectUp ["app"] ∨ isPrint (Event.print "") = true :=
  up_scoped_skips_reclaim [sampleApp, sampleStray] samplePlans ["app"]
    (fun _ _ => true) [] "web"
    [Event.projectUp ["app"], Event.print "", Event.print "  web services:",
     Event.print "", Event.print ""] (by decide) (by rfl)
    (Event.print "") (by decide)

/-- C1: in an unscoped `up`, every orphan is removed exactly once; a
running orphan receives, in order, SIGTERM, a bounded 10s wait (whose
timeout is tolerated for every oracle), a forceful stop, a second tolerated
bounded wait, and removal; an already-stopped orphan is only removed. -/
theorem up_orphan_teardown_protocol (pre : List Container)
    (plans : List (String × Plan)) (oracle : String → Nat → Bool)
    (post : List ServiceView) (pn : String) (orph : Dict) (k : String)
    (c : Container)
    (horph : computeOrphans pre (planContainerIds plans) = .ok orph)
    (hmem : (k, c) ∈ orph) :
    ∃ trace, upRun pre plans [] oracle post pn = .ok trace ∧
      (c.is_running = true →
        trace.filter (eventTargets k) =
          [Event.kill k "SIGTERM", Event.wait k 10 (oracle k 0),
           Event.stop k, Event.wait k 10 (oracle k 1), Event.remove k]) ∧
      (c.is_running = false →
        trace.filter (eventTargets k) = [Event.remove k]) ∧
      (trace.filter (isRemove k)).length = 1 := by
  obtain ⟨hid, hnd, hpre, hdisj⟩ := computeOrphans_entries pre _ orph horph
  have hck : c.id = k := hid (k, c) hmem
  have htr := upRun_eq_of_orphans pre plans [] oracle post pn orph horph
  have hif : (if ([] : List String).length = 0
      then reclaim oracle orph else []) = reclaim oracle orph := by simp
  rw [hif] at htr
  have hfilter : (([Event.projectUp []] ++ reclaim oracle orph
      ++ psRun pn post).filter (eventTargets k)) = reclaimOne oracle c := by
    rw [List.filter_append, List.filter_append]
    have h3 : (psRun pn post).filter (eventTargets k) = [] :=
      List.filter_eq_nil_iff.2 (fun e he => by
        simp [eventTargets_of_isPrint k e (psRun_isPrint pn post e he)])
    rw [reclaim_filter_eq oracle orph k c hid hnd hmem, h3]
    simp [eventTargets]
  refine ⟨_, htr, fun hr => ?_, fun hr => ?_, ?_⟩
  · rw [hfilter]
    simp [reclaimOne, hr, hck]
  · rw [hfilter]
    simp [reclaimOne, hr, hck]
  · rw [← filter_isRemove_through_targets k _, hfilter]
    cases hr : c.is_running <;> simp [reclaimOne, hr, isRemove, hck]

/-- C1 witness: a concrete running orphan is SIGTERMed, waited on (with a
timing-out wait), stopped, waited on again and removed exactly once. -/
theorem up_orphan_teardown_protocol_witness :
    ∃ trace, upRun [sampleApp, sampleStrayRun] samplePlans []
        (fun _ _ => true) [] "web" = .ok trace ∧
      (sampleStrayRun.is_running = true →
        trace.filter (eventTargets "id3") =
          [Event.kill "id3" "SIGTERM", Event.wait "id3" 10 true,
           Event.stop "id3", Event.wait "id3" 10 true, Event.remove "id3"]) ∧
      (sampleStrayRun.is_running = false →
        trace.filter (eventTargets "id3") = [Event.remove "id3"]) ∧
      (trace.filter (isRemove "id3")).length = 1 :=
  up_orphan_teardown_protocol [sampleApp, sampleStrayRun] samplePlans
    (fun _ _ => true) [] "web" [("id3", sampleStrayRun)] "id3" sampleStrayRun
    (by rfl) (by simp)

/-- C6: convergence plans are produced in the order of the requested
service names (or the project's declared order when none are named), and
`diff` renders its plan rows in exactly that order. -/
theorem plans_order_follows_request (pn : String) (declared sn : List String)
    (planOf : String → Plan) (pre : List Container) (trace : List Event)
    (h : diffCommand pn declared sn planOf pre = .ok trace) :
    ((get_convergence_plans (get_services declared sn) planOf).map (·.1) =
      if sn.isEmpty then declared else sn) ∧
    (∃ tail, trace = diffHeader pn
      ++ (if sn.isEmpty then declared else sn).map
           (fun s => renderPlanLine (s, planOf s))
      ++ tail) := by
  constructor
  · have hcomp : ((fun x : String × Plan => x.1) ∘ fun s => (s, planOf s)) =
        fun s : String => s := rfl
    simp [get_convergence_plans, get_services, List.map_map, hcomp]
  · unfold diffCommand at h
    cases horph : computeOrphans pre (planContainerIds
        (get_convergence_plans (get_services declared sn) planOf)) with
    | error k =>
        rw [diffRun_error pn pre _ k horph] at h
        cases h
    | ok orph =>
        rw [diffRun_eq_of_orphans pn pre _ orph horph] at h
        cases h
        refine ⟨orph.map
            (fun kc => Event.print (diffDeleteLine kc.2.name "delete"))
          ++ [Event.print ""], ?_⟩
        simp [get_convergence_plans, get_services, List.map_map,
          List.append_assoc, Function.comp]

/-- C6 witness: with one declared service and no requested names the plan
list follows the declared order. -/
theorem plans_order_follows_request_witness :
    (get_convergence_plans (get_services ["a"] [])
        (fun _ => ⟨"create", []⟩)).map (·.1) =
      (if ([] : List String).isEmpty then ["a"] else []) :=
  (plans_order_follows_request "web" ["a"] [] (fun _ => ⟨"create", []⟩) []
    (diffHeader "web" ++ [renderPlanLine ("a", ⟨"create", []⟩)]
      ++ [Event.print ""])
    (by rfl)).1

end Tug
